import Mathlib

/-!
Verification of the task-scheduling core of the `ai_task_manager` repository.

Shallow embedding conventions:
* Instants (`datetime`) are whole minutes since a reference midnight, as `Int`;
  a `timedelta` of m minutes is the integer m.  `dt.hour` is `(t % 1440) / 60`.
* Python `float` values produced by the code (scores, energies, alignment) are
  modelled by `ℚ`: every float the source manipulates is an exact small
  rational, so float arithmetic and comparisons match rational arithmetic.
* Fielded Python objects become structures; `None` becomes `Option.none`.
* In-place mutation of tasks by the scheduler is modelled by returning the
  final state of every iterated task next to the committed-task result list.
-/

namespace AITaskManager

/-- Embedding of enum `Priority` in `task_manager.py` (LOW=1 .. URGENT=4). -/
inductive Priority
  | LOW
  | MEDIUM
  | HIGH
  | URGENT
deriving DecidableEq

/-- Value of a `Priority`, as the Python `.value` attribute. -/
def Priority.val : Priority → Int
  | .LOW => 1
  | .MEDIUM => 2
  | .HIGH => 3
  | .URGENT => 4

/-- Embedding of enum `EnergyLevel` in `task_manager.py` (LOW=1 .. HIGH=3). -/
inductive EnergyLevel
  | LOW
  | MEDIUM
  | HIGH
deriving DecidableEq

/-- Value of an `EnergyLevel`, as the Python `.value` attribute. -/
def EnergyLevel.val : EnergyLevel → Int
  | .LOW => 1
  | .MEDIUM => 2
  | .HIGH => 3

/-- Embedding of class `Task` in `task_manager.py`.  Instants are whole
minutes (`Int`); `deadline` and `scheduled_time` are optional instants. -/
structure Task where
  task_id : String
  title : String
  description : String := ""
  duration_minutes : Int := 30
  priority : Priority := .MEDIUM
  deadline : Option Int := none
  required_energy : EnergyLevel := .MEDIUM
  tags : List String := []
  completed : Bool := false
  scheduled_time : Option Int := none
  created_at : Int := 0
deriving DecidableEq

/-- Hour component of an instant measured in minutes (`datetime.hour`). -/
def hourOf (t : Int) : Int := (t.emod 1440).ediv 60

/-- Embedding of the `hourly_energy` dict built in `EnergyProfile.__init__`:
a partial map from hour to `EnergyLevel`. -/
def hourly_energy : Int → Option EnergyLevel
  | 6 => some .LOW
  | 7 => some .MEDIUM
  | 8 => some .HIGH
  | 9 => some .HIGH
  | 10 => some .HIGH
  | 11 => some .MEDIUM
  | 12 => some .MEDIUM
  | 13 => some .LOW
  | 14 => some .LOW
  | 15 => some .MEDIUM
  | 16 => some .HIGH
  | 17 => some .MEDIUM
  | 18 => some .MEDIUM
  | 19 => some .LOW
  | 20 => some .LOW
  | _ => none

/-- Embedding of `EnergyProfile.get_energy_at_time`: dict lookup on the hour
of the instant, with `EnergyLevel.MEDIUM` as the `.get` default. -/
def get_energy_at_time (t : Int) : EnergyLevel :=
  (hourly_energy (hourOf t)).getD .MEDIUM

/-- Embedding of `DynamicScheduler.calculate_task_score`.  The float score is
modelled by `ℚ` (all intermediate values are exact); `total_seconds() / 3600`
of a whole-minute difference m is `(m * 60) / 3600`. -/
def calculate_task_score (task : Task) (slot_time : Int) : ℚ :=
  let score : ℚ := 0
  let score := score + ((task.priority.val * 2 : Int) : ℚ)
  let energy_at_slot := get_energy_at_time slot_time
  let score :=
    if task.required_energy.val ≤ energy_at_slot.val then score + 3
    else score - (((task.required_energy.val - energy_at_slot.val : Int)) : ℚ)
  match task.deadline with
  | none => score
  | some deadline =>
    let time_until_deadline : ℚ := (((deadline - slot_time : Int)) : ℚ) * 60 / 3600
    if time_until_deadline < 0 then score - 100
    else if time_until_deadline < 24 then score + 5
    else if time_until_deadline < 48 then score + 3
    else score

/-- Candidate start times visited by the inner `while test_time < search_end`
loop of `schedule_tasks`: `current_time`, `current_time + 30`, ... , strictly
below `search_end` (the loop steps by `timedelta(minutes=30)`). -/
def slotCandidates (current_time search_end : Int) : List Int :=
  (List.range (((search_end - current_time).toNat + 29) / 30)).map
    (fun k : Nat => current_time + 30 * (k : Int))

/-- Body of the inner loop of `schedule_tasks`: fold over the candidate slots
keeping `(best_slot, best_score)`, starting from `best_slot = None` /
`best_score = -inf` (so the first candidate always replaces it, and later
candidates replace it only on a strictly greater score). -/
def findBestSlot (score : Int → ℚ) (current_time search_end : Int) :
    Option (Int × ℚ) :=
  (slotCandidates current_time search_end).foldl
    (fun best test_time =>
      match best with
      | none => some (test_time, score test_time)
      | some (best_slot, best_score) =>
        if best_score < score test_time then some (test_time, score test_time)
        else some (best_slot, best_score))
    none

/-- The `search_end` computed for one task inside `schedule_tasks`:
`min(end_time, deadline - duration)` when a deadline exists, else `end_time`. -/
def searchEndOf (end_time : Int) (task : Task) : Int :=
  match task.deadline with
  | some deadline => min end_time (deadline - task.duration_minutes)
  | none => end_time

/-- The `for task in pending_tasks` loop of `schedule_tasks`.  First component:
the final state of every iterated task, in iteration order (a committed task
carries its new `scheduled_time`, mirroring the in-place mutation); second
component: the `scheduled_tasks` result list in commitment order. -/
def scheduleLoop (end_time : Int) : List Task → Int → List Task × List Task
  | [], _ => ([], [])
  | task :: rest, current_time =>
    match findBestSlot (calculate_task_score task) current_time
        (searchEndOf end_time task) with
    | none =>
      let r := scheduleLoop end_time rest current_time
      (task :: r.1, r.2)
    | some (best_slot, _) =>
      let task' := { task with scheduled_time := some best_slot }
      let current' :=
        if current_time ≤ best_slot then best_slot + task.duration_minutes
        else current_time
      let r := scheduleLoop end_time rest current'
      (task' :: r.1, task' :: r.2)

/-- Comparison of the sort keys
`(-t.priority.value, t.deadline if t.deadline else datetime.max)` used by
`schedule_tasks`; `none` plays the role of `datetime.max`.  `deadlineKeyLe a b`
holds iff the key of `a` is at most the key of `b`. -/
def deadlineKeyLe : Option Int → Option Int → Bool
  | _, none => true
  | none, some _ => false
  | some x, some y => decide (x ≤ y)

/-- Total preorder on tasks given by the `schedule_tasks` sort key
(priority descending, then deadline ascending with `none` last). -/
def taskKeyLe (a b : Task) : Bool :=
  if a.priority.val = b.priority.val then deadlineKeyLe a.deadline b.deadline
  else decide (b.priority.val < a.priority.val)

/-- Stable insertion of a task into an already sorted list: the new task goes
after every existing task whose key is less than or equal to its own. -/
def insertTask (task : Task) : List Task → List Task
  | [] => [task]
  | x :: xs => if taskKeyLe x task then x :: insertTask task xs else task :: x :: xs

/-- Embedding of `pending_tasks.sort(key=...)` in `schedule_tasks`.  Python's
`list.sort` is a stable sort; a stable sort by a fixed key is a unique
function of the input, so it is modelled by stable insertion sort. -/
def sortTasks (tasks : List Task) : List Task :=
  tasks.foldl (fun acc task => insertTask task acc) []

/-- The `pending_tasks` filter of `schedule_tasks` (drop completed tasks). -/
def pendingOf (tasks : List Task) : List Task :=
  tasks.filter (fun t => !t.completed)

/-- The filtered-and-sorted task list `schedule_tasks` iterates over. -/
def pendingSorted (tasks : List Task) : List Task :=
  sortTasks (pendingOf tasks)

/-- Embedding of `DynamicScheduler.schedule_tasks`: the returned
`scheduled_tasks` list (committed tasks, in commitment order, each carrying
its newly assigned `scheduled_time`). -/
def schedule_tasks (tasks : List Task) (start_time end_time : Int) : List Task :=
  (scheduleLoop end_time (pendingSorted tasks) start_time).2

/-- Embedding of one entry of `AIRecommendationEngine.task_history`. -/
structure HistRec where
  priority : Int
  duration : Int
  energy : Int
  tags : Int
  actual_duration : Int
deriving DecidableEq

/-- Embedding of `np.mean` on a list of integers, as an exact rational. -/
def npMean (xs : List Int) : ℚ := ((xs.sum : Int) : ℚ) / ((xs.length : Nat) : ℚ)

/-- Embedding of Python `int()` applied to a (here exact) float: truncation
toward zero of the rational. -/
def pyIntOfRat (q : ℚ) : Int := q.num.tdiv (q.den : Int)

/-- Embedding of `AIRecommendationEngine.learn_from_task`, acting on the
history list.  The stored `actual_duration` is
`completion_time_minutes or task.duration_minutes`, where both `None` and `0`
are falsy in Python. -/
def learn_from_task (hist : List HistRec) (task : Task)
    (completion_time_minutes : Option Int) : List HistRec :=
  if task.completed then
    hist ++ [{ priority := task.priority.val
               duration := task.duration_minutes
               energy := task.required_energy.val
               tags := (task.tags.length : Int)
               actual_duration :=
                 match completion_time_minutes with
                 | some c => if c = 0 then task.duration_minutes else c
                 | none => task.duration_minutes }]
  else hist

/-- The `similar_tasks` filter of `recommend_duration`: history records whose
priority value differs from the task's by at most 1. -/
def similarTasks (hist : List HistRec) (task : Task) : List HistRec :=
  hist.filter (fun r => decide (|r.priority - task.priority.val| ≤ 1))

/-- Embedding of `AIRecommendationEngine.recommend_duration`. -/
def recommend_duration (hist : List HistRec) (task : Task) : Int :=
  if hist.length < 3 then task.duration_minutes
  else
    if similarTasks hist task ≠ [] then
      pyIntOfRat (npMean ((similarTasks hist task).map
        (fun r => r.actual_duration)))
    else task.duration_minutes

/-- Embedding of dataclass `EnergyPattern` in `algorithms.py`. -/
structure EnergyPattern where
  hour : Int
  energy : ℚ
deriving DecidableEq

/-- Embedding of `DEFAULT_ENERGY_PATTERN` in `algorithms.py`. -/
def DEFAULT_ENERGY_PATTERN : List EnergyPattern :=
  [⟨6, 30⟩, ⟨7, 50⟩, ⟨8, 70⟩, ⟨9, 85⟩, ⟨10, 90⟩, ⟨11, 85⟩, ⟨12, 75⟩,
   ⟨13, 60⟩, ⟨14, 50⟩, ⟨15, 55⟩, ⟨16, 70⟩, ⟨17, 75⟩, ⟨18, 70⟩, ⟨19, 60⟩,
   ⟨20, 50⟩, ⟨21, 40⟩, ⟨22, 30⟩, ⟨23, 20⟩]

/-- Embedding of `find_optimal_time_windows` in `algorithms.py`: the
accumulating `for` loop appending every hour whose energy meets the
requirement. -/
def find_optimal_time_windows (energy_required : ℚ)
    (energy_pattern : List EnergyPattern) : List Int :=
  energy_pattern.foldl
    (fun optimal_hours p =>
      if energy_required ≤ p.energy then optimal_hours ++ [p.hour]
      else optimal_hours)
    []

/-- Embedding of `find_deep_work_windows` in `algorithms.py`: the list
comprehension keeping hours with energy at least 70. -/
def find_deep_work_windows (energy_pattern : List EnergyPattern) : List Int :=
  (energy_pattern.filter (fun p => decide ((70 : ℚ) ≤ p.energy))).map
    (fun p => p.hour)

/-- Embedding of `calculate_energy_alignment` in `algorithms.py`.
`next((p for p in energy_pattern if p.hour == scheduled_hour), None)` is the
first matching entry, i.e. `List.find?`. -/
def calculate_energy_alignment (scheduled_hour : Int)
    (task_energy_required : ℚ) (energy_pattern : List EnergyPattern) : ℚ :=
  match energy_pattern.find? (fun p => decide (p.hour = scheduled_hour)) with
  | none => 0
  | some hour_data =>
    let available_energy := hour_data.energy
    if task_energy_required ≤ available_energy then
      let excess := available_energy - task_energy_required
      min 1 (1 - excess / 100)
    else
      let deficit := task_energy_required - available_energy
      max 0 (1 - deficit / 50)

/-!
Integer bridge.  Every score the Python code computes is an integer-valued
float; `scoreZ` is the integer form (proved equal to `calculate_task_score`
below), and the `...Z` copies of the scheduler let concrete runs be evaluated
by the kernel, which cannot reduce `ℚ` arithmetic.
-/

/-- Integer form of `calculate_task_score`: the hour thresholds 24 h / 48 h
become 1440 / 2880 minutes. -/
def scoreZ (task : Task) (slot_time : Int) : Int :=
  task.priority.val * 2
    + (if task.required_energy.val ≤ (get_energy_at_time slot_time).val then 3
       else -(task.required_energy.val - (get_energy_at_time slot_time).val))
    + (match task.deadline with
       | none => 0
       | some deadline =>
         if deadline - slot_time < 0 then -100
         else if deadline - slot_time < 1440 then 5
         else if deadline - slot_time < 2880 then 3
         else 0)

/-- Integer-scored copy of `findBestSlot`. -/
def findBestSlotZ (score : Int → Int) (current_time search_end : Int) :
    Option (Int × Int) :=
  (slotCandidates current_time search_end).foldl
    (fun best test_time =>
      match best with
      | none => some (test_time, score test_time)
      | some (best_slot, best_score) =>
        if best_score < score test_time then some (test_time, score test_time)
        else some (best_slot, best_score))
    none

/-- Integer-scored copy of `scheduleLoop`. -/
def scheduleLoopZ (end_time : Int) : List Task → Int → List Task × List Task
  | [], _ => ([], [])
  | task :: rest, current_time =>
    match findBestSlotZ (scoreZ task) current_time
        (searchEndOf end_time task) with
    | none =>
      let r := scheduleLoopZ end_time rest current_time
      (task :: r.1, r.2)
    | some (best_slot, _) =>
      let task' := { task with scheduled_time := some best_slot }
      let current' :=
        if current_time ≤ best_slot then best_slot + task.duration_minutes
        else current_time
      let r := scheduleLoopZ end_time rest current'
      (task' :: r.1, task' :: r.2)

/-- Integer-scored copy of `schedule_tasks`. -/
def schedule_tasksZ (tasks : List Task) (start_time end_time : Int) : List Task :=
  (scheduleLoopZ end_time (pendingSorted tasks) start_time).2

/-- A task with every field except `scheduled_time` kept: the part of a task
the scheduler's sorting and scoring can see. -/
def stripSched (t : Task) : Task := { t with scheduled_time := none }

/-- Example input: a 60-minute medium-priority, medium-energy task. -/
def exTask : Task :=
  { task_id := "t1", title := "write report", duration_minutes := 60,
    priority := .MEDIUM, required_energy := .MEDIUM }

/-- Example input: a 30-minute medium-priority task. -/
def exTask2 : Task :=
  { task_id := "t4", title := "triage inbox", duration_minutes := 30,
    priority := .MEDIUM, required_energy := .MEDIUM }

/-- Example input: `exTask` carrying a stale scheduled time from an earlier
run. -/
def exTaskStale : Task := { exTask with scheduled_time := some 300 }

/-- Example input: an urgent task whose deadline (minute 400) precedes
`windowStart + duration` for the window starting at minute 390. -/
def lateTask : Task :=
  { task_id := "t2", title := "late errand", duration_minutes := 60,
    priority := .URGENT, deadline := some 400 }

/-- Example input: an already completed task. -/
def doneTask : Task :=
  { task_id := "t3", title := "done chore", completed := true }

/-- Example history: three MEDIUM-priority completions that took 30, 31 and
31 minutes. -/
def exHist : List HistRec :=
  [⟨2, 30, 2, 0, 30⟩, ⟨2, 31, 2, 0, 31⟩, ⟨2, 31, 2, 0, 31⟩]

/-! ### Bridge lemmas between the rational scorer and its integer form -/

lemma timeCmp (x c : Int) : ((x : ℚ) * 60 / 3600 < (c : ℚ)) ↔ x < c * 60 := by
  rw [div_lt_iff (by norm_num : (0 : ℚ) < 3600)]
  have h : ((x : ℚ) * 60 < (c : ℚ) * 3600) ↔ (x * 60 < c * 3600) := by
    constructor
    · intro h; exact_mod_cast h
    · intro h; exact_mod_cast h
  rw [h]
  omega

lemma calculate_task_score_eq (task : Task) (slot_time : Int) :
    calculate_task_score task slot_time = ((scoreZ task slot_time : Int) : ℚ) := by
  have h0 : ((0 : ℚ)) = (((0 : Int)) : ℚ) := by norm_num
  have h24 : ((24 : ℚ)) = (((24 : Int)) : ℚ) := by norm_num
  have h48 : ((48 : ℚ)) = (((48 : Int)) : ℚ) := by norm_num
  rcases hd : task.deadline with _ | d
  · simp only [calculate_task_score, scoreZ, hd]
    split <;> push_cast <;> ring
  · simp only [calculate_task_score, scoreZ, hd, h0, h24, h48, timeCmp]
    norm_num
    split_ifs <;> push_cast <;> ring

lemma findBestSlot_eq_Z (f : Int → Int) (current_time search_end : Int) :
    findBestSlot (fun t => ((f t : Int) : ℚ)) current_time search_end =
      (findBestSlotZ f current_time search_end).map
        (fun r => (r.1, ((r.2 : Int) : ℚ))) := by
  unfold findBestSlot findBestSlotZ
  generalize slotCandidates current_time search_end = l
  suffices h : ∀ (b : Option (Int × Int)),
      l.foldl
        (fun best test_time =>
          match best with
          | none => some (test_time, ((f test_time : Int) : ℚ))
          | some (best_slot, best_score) =>
            if best_score < ((f test_time : Int) : ℚ) then
              some (test_time, ((f test_time : Int) : ℚ))
            else some (best_slot, best_score))
        (b.map (fun r => (r.1, ((r.2 : Int) : ℚ)))) =
      (l.foldl
        (fun best test_time =>
          match best with
          | none => some (test_time, f test_time)
          | some (best_slot, best_score) =>
            if best_score < f test_time then some (test_time, f test_time)
            else some (best_slot, best_score))
        b).map (fun r => (r.1, ((r.2 : Int) : ℚ))) by
    simpa using h none
  induction l with
  | nil => intro b; rfl
  | cons t ts ih =>
    intro b
    rcases b with _ | ⟨bs, bz⟩
    · simpa using ih (some (t, f t))
    · simp only [List.foldl_cons, Option.map_some']
      by_cases h : bz < f t
      · rw [if_pos h,
          if_pos (show ((bz : Int) : ℚ) < ((f t : Int) : ℚ) from by exact_mod_cast h)]
        simpa using ih (some (t, f t))
      · rw [if_neg h,
          if_neg (show ¬ ((bz : Int) : ℚ) < ((f t : Int) : ℚ) from by exact_mod_cast h)]
        simpa using ih (some (bs, bz))

lemma scheduleLoop_eq_Z (end_time : Int) :
    ∀ (ts : List Task) (cur : Int),
      scheduleLoop end_time ts cur = scheduleLoopZ end_time ts cur := by
  intro ts
  induction ts with
  | nil => intro cur; rfl
  | cons task rest ih =>
    intro cur
    have hs : calculate_task_score task = fun t => ((scoreZ task t : Int) : ℚ) :=
      funext (fun t => calculate_task_score_eq task t)
    simp only [scheduleLoop, scheduleLoopZ, hs, findBestSlot_eq_Z]
    rcases hfb : findBestSlotZ (scoreZ task) cur (searchEndOf end_time task)
      with _ | ⟨slot, z⟩
    · simp [ih cur]
    · simp [ih]

lemma schedule_tasks_eq_Z (tasks : List Task) (s e : Int) :
    schedule_tasks tasks s e = schedule_tasksZ tasks s e := by
  unfold schedule_tasks schedule_tasksZ
  rw [scheduleLoop_eq_Z]

/-! ### Facts about the candidate-slot scan -/

lemma slotCandidates_nil {cur fin : Int} (h : fin ≤ cur) :
    slotCandidates cur fin = [] := by
  unfold slotCandidates
  have h' : ((fin - cur).toNat + 29) / 30 = 0 := by omega
  simp [h']

lemma mem_slotCandidates {cur fin t : Int} (h : t ∈ slotCandidates cur fin) :
    cur ≤ t ∧ t < fin := by
  unfold slotCandidates at h
  simp only [List.mem_map, List.mem_range] at h
  obtain ⟨k, hk, rfl⟩ := h
  have hk2 : (k + 1) * 30 ≤ (fin - cur).toNat + 29 :=
    (Nat.le_div_iff_mul_le (by norm_num : 0 < 30)).mp (Nat.succ_le_of_lt hk)
  omega

lemma findBestSlot_none (score : Int → ℚ) {cur fin : Int} (h : fin ≤ cur) :
    findBestSlot score cur fin = none := by
  unfold findBestSlot
  rw [slotCandidates_nil h]
  rfl

lemma findBestSlot_mem {score : Int → ℚ} {cur fin : Int} {r : Int × ℚ}
    (h : findBestSlot score cur fin = some r) : cur ≤ r.1 ∧ r.1 < fin := by
  unfold findBestSlot at h
  suffices haux : ∀ (l : List Int) (b : Option (Int × ℚ)),
      l.foldl
        (fun best test_time =>
          match best with
          | none => some (test_time, score test_time)
          | some (best_slot, best_score) =>
            if best_score < score test_time then some (test_time, score test_time)
            else some (best_slot, best_score))
        b = some r →
      b = some r ∨ r.1 ∈ l by
    rcases haux _ none h with h' | h'
    · cases h'
    · exact mem_slotCandidates h'
  intro l
  induction l with
  | nil => intro b hb; exact Or.inl hb
  | cons t ts ih =>
    intro b hb
    simp only [List.foldl_cons] at hb
    rcases b with _ | ⟨bs, bq⟩
    · rcases ih (some (t, score t)) hb with h' | h'
      · obtain rfl := (Option.some_inj.mp h').symm
        exact Or.inr (List.mem_cons_self t ts)
      · exact Or.inr (List.mem_cons_of_mem _ h')
    · rcases ih (if bq < score t then some (t, score t) else some (bs, bq)) hb
        with h' | h'
      · by_cases hlt : bq < score t
        · rw [if_pos hlt] at h'
          obtain rfl := (Option.some_inj.mp h').symm
          exact Or.inr (List.mem_cons_self t ts)
        · rw [if_neg hlt] at h'
          exact Or.inl h'
      · exact Or.inr (List.mem_cons_of_mem _ h')

/-! ### Structural facts about the scheduling loop -/

lemma searchEndOf_le (end_time : Int) (task : Task) :
    searchEndOf end_time task ≤ end_time := by
  rcases hd : task.deadline with _ | d <;> simp [searchEndOf, hd]

lemma scheduleLoop_committed (end_time : Int) :
    ∀ (ts : List Task) (cur : Int), ∀ t' ∈ (scheduleLoop end_time ts cur).2,
      ∃ t, t ∈ ts ∧ ∃ slot, t' = { t with scheduled_time := some slot } ∧
        slot < searchEndOf end_time t := by
  intro ts
  induction ts with
  | nil => intro cur t' h; simp [scheduleLoop] at h
  | cons task rest ih =>
    intro cur t' h
    rcases hfb : findBestSlot (calculate_task_score task) cur
        (searchEndOf end_time task) with _ | ⟨slot0, q⟩
    · simp only [scheduleLoop, hfb] at h
      obtain ⟨t, ht, hrest⟩ := ih cur t' h
      exact ⟨t, List.mem_cons_of_mem _ ht, hrest⟩
    · simp only [scheduleLoop, hfb, List.mem_cons] at h
      rcases h with h | h
      · exact ⟨task, List.mem_cons_self _ _, slot0, h, (findBestSlot_mem hfb).2⟩
      · obtain ⟨t, ht, hrest⟩ := ih _ t' h
        exact ⟨t, List.mem_cons_of_mem _ ht, hrest⟩

lemma scheduleLoop_slots_ge (end_time : Int) :
    ∀ (ts : List Task) (cur : Int),
      (∀ t ∈ ts, 0 ≤ t.duration_minutes) →
      ∀ t' ∈ (scheduleLoop end_time ts cur).2, ∀ slot,
        t'.scheduled_time = some slot → cur ≤ slot := by
  intro ts
  induction ts with
  | nil => intro cur _ t' h; simp [scheduleLoop] at h
  | cons task rest ih =>
    intro cur hdur t' h slot hslot
    rcases hfb : findBestSlot (calculate_task_score task) cur
        (searchEndOf end_time task) with _ | ⟨slot0, q⟩
    · simp only [scheduleLoop, hfb] at h
      exact ih cur (fun t ht => hdur t (List.mem_cons_of_mem _ ht)) t' h slot hslot
    · have hcur0 : cur ≤ slot0 := (findBestSlot_mem hfb).1
      simp only [scheduleLoop, hfb, List.mem_cons] at h
      rcases h with h | h
      · rw [h] at hslot
        have hss : slot0 = slot := by simpa using hslot
        omega
      · have hd0 : 0 ≤ task.duration_minutes := hdur task (List.mem_cons_self _ _)
        have hcur' : cur ≤
            (if cur ≤ slot0 then slot0 + task.duration_minutes else cur) := by
          split <;> omega
        exact le_trans hcur'
          (ih _ (fun t ht => hdur t (List.mem_cons_of_mem _ ht)) t' h slot hslot)

lemma scheduleLoop_slots_lt (end_time : Int) (ts : List Task) (cur : Int)
    {t' : Task} (h : t' ∈ (scheduleLoop end_time ts cur).2) {slot : Int}
    (hs : t'.scheduled_time = some slot) : slot < end_time := by
  obtain ⟨t, _, slot0, rfl, hlt⟩ := scheduleLoop_committed end_time ts cur t' h
  have hss : slot0 = slot := by simpa using hs
  subst hss
  exact lt_of_lt_of_le hlt (searchEndOf_le _ _)

lemma scheduleLoop_deadline (end_time : Int) (ts : List Task) (cur : Int)
    (hdur : ∀ t ∈ ts, 0 ≤ t.duration_minutes)
    {t' : Task} (h : t' ∈ (scheduleLoop end_time ts cur).2) {d : Int}
    (hd : t'.deadline = some d) : cur + t'.duration_minutes < d := by
  obtain ⟨t, _, slot0, rfl, hlt⟩ := scheduleLoop_committed end_time ts cur t' h
  have hge : cur ≤ slot0 :=
    scheduleLoop_slots_ge end_time ts cur hdur _ h slot0 (by simp)
  have hdl : t.deadline = some d := hd
  rw [searchEndOf, hdl] at hlt
  have : slot0 < d - t.duration_minutes := lt_of_lt_of_le hlt (min_le_right _ _)
  simp only
  omega

lemma scheduleLoop_pairwise (end_time : Int) :
    ∀ (ts : List Task) (cur : Int),
      (∀ t ∈ ts, 0 < t.duration_minutes) →
      (scheduleLoop end_time ts cur).2.Pairwise
        (fun a b => ∀ sa sb, a.scheduled_time = some sa →
          b.scheduled_time = some sb →
          sa + a.duration_minutes ≤ sb ∧ sa < sb) := by
  intro ts
  induction ts with
  | nil => intro cur _; simp [scheduleLoop]
  | cons task rest ih =>
    intro cur hdur
    rcases hfb : findBestSlot (calculate_task_score task) cur
        (searchEndOf end_time task) with _ | ⟨slot0, q⟩
    · simp only [scheduleLoop, hfb]
      exact ih cur (fun t ht => hdur t (List.mem_cons_of_mem _ ht))
    · have hcur0 : cur ≤ slot0 := (findBestSlot_mem hfb).1
      have hdt : 0 < task.duration_minutes := hdur task (List.mem_cons_self _ _)
      simp only [scheduleLoop, hfb]
      refine List.Pairwise.cons ?_
        (ih _ (fun t ht => hdur t (List.mem_cons_of_mem _ ht)))
      intro b hb sa sb hsa hsb
      have hsa' : slot0 = sa := by simpa using hsa
      have hcur' : (if cur ≤ slot0 then slot0 + task.duration_minutes else cur) =
          slot0 + task.duration_minutes := if_pos hcur0
      have hge := scheduleLoop_slots_ge end_time rest _
        (fun t ht => le_of_lt (hdur t (List.mem_cons_of_mem _ ht))) b hb sb hsb
      rw [hcur'] at hge
      simp only
      omega

lemma scheduleLoop_finals (end_time : Int) :
    ∀ (ts : List Task) (cur : Int) (i : Nat),
      ((scheduleLoop end_time ts cur).1)[i]? = ts[i]? ∨
      ∃ t slot, ts[i]? = some t ∧
        ((scheduleLoop end_time ts cur).1)[i]? =
          some { t with scheduled_time := some slot } ∧
        { t with scheduled_time := some slot } ∈ (scheduleLoop end_time ts cur).2 := by
  intro ts
  induction ts with
  | nil => intro cur i; left; simp [scheduleLoop]
  | cons task rest ih =>
    intro cur i
    rcases hfb : findBestSlot (calculate_task_score task) cur
        (searchEndOf end_time task) with _ | ⟨slot0, q⟩
    · simp only [scheduleLoop, hfb]
      cases i with
      | zero => left; simp
      | succ n =>
        rcases ih cur n with h | ⟨t, slot, h1, h2, h3⟩
        · left
          simpa using h
        · right
          exact ⟨t, slot, by simpa using h1, by simpa using h2, h3⟩
    · simp only [scheduleLoop, hfb]
      cases i with
      | zero =>
        right
        exact ⟨task, slot0, by simp, by simp, List.mem_cons_self _ _⟩
      | succ n =>
        rcases ih (if cur ≤ slot0 then slot0 + task.duration_minutes else cur) n
          with h | ⟨t, slot, h1, h2, h3⟩
        · left
          simpa using h
        · right
          exact ⟨t, slot, by simpa using h1, by simpa using h2,
            List.mem_cons_of_mem _ h3⟩

lemma scheduleLoop_skip (end_time : Int) :
    ∀ (ts : List Task) (cur : Int),
      (∀ t ∈ ts, 0 ≤ t.duration_minutes) →
      ∀ (i : Nat) (t : Task) (d : Int),
        ts[i]? = some t → t.deadline = some d →
        d - t.duration_minutes < cur →
        ((scheduleLoop end_time ts cur).1)[i]? = some t := by
  intro ts
  induction ts with
  | nil => intro cur _ i t d hi; simp at hi
  | cons task rest ih =>
    intro cur hdur i t d hi hd hlt
    cases i with
    | zero =>
      have ht : task = t := by simpa using hi
      subst ht
      have hse : searchEndOf end_time task ≤ cur := by
        rw [searchEndOf, hd]
        exact le_trans (min_le_right _ _) (by omega)
      have hfb : findBestSlot (calculate_task_score task) cur
          (searchEndOf end_time task) = none := findBestSlot_none _ hse
      simp only [scheduleLoop, hfb]
      simp
    | succ n =>
      rcases hfb : findBestSlot (calculate_task_score task) cur
          (searchEndOf end_time task) with _ | ⟨slot0, q⟩
      · simp only [scheduleLoop, hfb, List.getElem?_cons_succ]
        exact ih cur (fun u hu => hdur u (List.mem_cons_of_mem _ hu)) n t d
          (by simpa using hi) hd hlt
      · have hcur0 : cur ≤ slot0 := (findBestSlot_mem hfb).1
        have hd0 : 0 ≤ task.duration_minutes := hdur task (List.mem_cons_self _ _)
        simp only [scheduleLoop, hfb, List.getElem?_cons_succ]
        refine ih _ (fun u hu => hdur u (List.mem_cons_of_mem _ hu)) n t d
          (by simpa using hi) hd ?_
        split <;> omega

/-! ### Membership facts about the stable sort -/

lemma mem_insertTask {a task : Task} :
    ∀ {l : List Task}, a ∈ insertTask task l ↔ a = task ∨ a ∈ l
  | [] => by simp [insertTask]
  | x :: xs => by
    unfold insertTask
    split
    · rw [List.mem_cons, mem_insertTask, List.mem_cons]
      tauto
    · simp only [List.mem_cons]

lemma mem_foldl_insert (l : List Task) :
    ∀ (acc : List Task) (a : Task),
      (a ∈ l.foldl (fun acc t => insertTask t acc) acc ↔ a ∈ acc ∨ a ∈ l) := by
  induction l with
  | nil => intro acc a; simp
  | cons t ts ih =>
    intro acc a
    rw [List.foldl_cons, ih, mem_insertTask, List.mem_cons]
    tauto

lemma mem_sortTasks {a : Task} {l : List Task} : a ∈ sortTasks l ↔ a ∈ l := by
  unfold sortTasks
  rw [mem_foldl_insert]
  simp

lemma mem_pendingSorted {a : Task} {tasks : List Task} :
    a ∈ pendingSorted tasks ↔ a ∈ tasks ∧ a.completed = false := by
  unfold pendingSorted pendingOf
  rw [mem_sortTasks]
  simp [List.mem_filter]

/-! ### Congruence: the scheduler never looks at `scheduled_time` -/

/-- Two tasks that agree on every field except possibly `scheduled_time`. -/
def SchedEq (a b : Task) : Prop := stripSched a = stripSched b

lemma strip_congr {α : Sort _} (f : Task → α) {a b : Task}
    (h : stripSched a = stripSched b) : f (stripSched a) = f (stripSched b) :=
  congrArg f h

lemma withSched_congr {a b : Task} (h : stripSched a = stripSched b)
    (v : Option Int) :
    ({ a with scheduled_time := v } : Task) = { b with scheduled_time := v } := by
  cases a
  cases b
  simp only [stripSched, Task.mk.injEq] at h
  simp only [Task.mk.injEq]
  tauto

lemma score_congr {a b : Task} (h : stripSched a = stripSched b) :
    calculate_task_score a = calculate_task_score b := by
  have hp : a.priority = b.priority := strip_congr Task.priority h
  have hre : a.required_energy = b.required_energy := strip_congr Task.required_energy h
  have hd : a.deadline = b.deadline := strip_congr Task.deadline h
  funext s
  unfold calculate_task_score
  rw [hp, hre, hd]

lemma searchEndOf_congr {a b : Task} (h : stripSched a = stripSched b)
    (end_time : Int) : searchEndOf end_time a = searchEndOf end_time b := by
  have hd : a.deadline = b.deadline := strip_congr Task.deadline h
  have hdur : a.duration_minutes = b.duration_minutes :=
    strip_congr Task.duration_minutes h
  unfold searchEndOf
  rw [hd, hdur]

lemma taskKeyLe_congr {a a' b b' : Task} (ha : stripSched a = stripSched a')
    (hb : stripSched b = stripSched b') : taskKeyLe a b = taskKeyLe a' b' := by
  have h1 : a.priority = a'.priority := strip_congr Task.priority ha
  have h2 : b.priority = b'.priority := strip_congr Task.priority hb
  have h3 : a.deadline = a'.deadline := strip_congr Task.deadline ha
  have h4 : b.deadline = b'.deadline := strip_congr Task.deadline hb
  unfold taskKeyLe
  rw [h1, h2, h3, h4]

lemma forall₂_of_map_strip :
    ∀ {xs ys : List Task}, xs.map stripSched = ys.map stripSched →
      List.Forall₂ SchedEq xs ys
  | [], [], _ => List.Forall₂.nil
  | [], _ :: _, h => by simp at h
  | _ :: _, [], h => by simp at h
  | x :: xs, y :: ys, h => by
    simp only [List.map_cons, List.cons.injEq] at h
    exact List.Forall₂.cons h.1 (forall₂_of_map_strip h.2)

lemma pendingOf_congr {xs ys : List Task} (h : List.Forall₂ SchedEq xs ys) :
    List.Forall₂ SchedEq (pendingOf xs) (pendingOf ys) := by
  induction h with
  | nil => exact List.Forall₂.nil
  | @cons x y l₁ l₂ hxy hrest ih =>
    have hc : x.completed = y.completed := strip_congr Task.completed hxy
    simp only [pendingOf, List.filter_cons] at *
    rw [hc]
    split
    · exact List.Forall₂.cons hxy ih
    · exact ih

lemma insertTask_congr {t t' : Task} (ht : SchedEq t t') :
    ∀ {l l' : List Task}, List.Forall₂ SchedEq l l' →
      List.Forall₂ SchedEq (insertTask t l) (insertTask t' l') := by
  intro l l' h
  induction h with
  | nil => exact List.Forall₂.cons ht List.Forall₂.nil
  | @cons x y l₁ l₂ hxy hrest ih =>
    have hk : taskKeyLe x t = taskKeyLe y t' := taskKeyLe_congr hxy ht
    by_cases hyt : taskKeyLe y t' = true
    · simp only [insertTask, hk, hyt, if_true]
      exact List.Forall₂.cons hxy ih
    · simp only [insertTask, hk, hyt, if_false]
      exact List.Forall₂.cons ht (List.Forall₂.cons hxy hrest)

lemma foldl_insert_congr :
    ∀ {xs ys : List Task}, List.Forall₂ SchedEq xs ys →
      ∀ {acc acc' : List Task}, List.Forall₂ SchedEq acc acc' →
        List.Forall₂ SchedEq (xs.foldl (fun acc t => insertTask t acc) acc)
          (ys.foldl (fun acc t => insertTask t acc) acc') := by
  intro xs ys h
  induction h with
  | nil => intro acc acc' hacc; exact hacc
  | cons hxy hrest ih =>
    intro acc acc' hacc
    simp only [List.foldl_cons]
    exact ih (insertTask_congr hxy hacc)

lemma sortTasks_congr {xs ys : List Task} (h : List.Forall₂ SchedEq xs ys) :
    List.Forall₂ SchedEq (sortTasks xs) (sortTasks ys) := by
  unfold sortTasks
  exact foldl_insert_congr h List.Forall₂.nil

lemma scheduleLoop_congr (end_time : Int) :
    ∀ {ts ts' : List Task}, List.Forall₂ SchedEq ts ts' → ∀ cur : Int,
      (scheduleLoop end_time ts cur).2 = (scheduleLoop end_time ts' cur).2 := by
  intro ts ts' h
  induction h with
  | nil => intro cur; rfl
  | @cons x y l₁ l₂ hxy hrest ih =>
    intro cur
    have hs : calculate_task_score x = calculate_task_score y := score_congr hxy
    have he : searchEndOf end_time x = searchEndOf end_time y :=
      searchEndOf_congr hxy end_time
    have hdur : x.duration_minutes = y.duration_minutes :=
      strip_congr Task.duration_minutes hxy
    simp only [scheduleLoop, hs, he]
    rcases hfb : findBestSlot (calculate_task_score y) cur (searchEndOf end_time y)
      with _ | ⟨slot0, q⟩
    · simpa using ih cur
    · simp only
      congr 1
      · exact withSched_congr hxy (some slot0)
      · rw [hdur]
        exact ih _

lemma schedule_tasks_congr {xs ys : List Task}
    (h : xs.map stripSched = ys.map stripSched) (s e : Int) :
    schedule_tasks xs s e = schedule_tasks ys s e := by
  unfold schedule_tasks pendingSorted
  exact scheduleLoop_congr e
    (sortTasks_congr (pendingOf_congr (forall₂_of_map_strip h))) s

/-! ### Helpers for the recommendation engine and the energy queries -/

lemma pyIntOfRat_eq_floor {q : ℚ} (h : 0 ≤ q) : pyIntOfRat q = ⌊q⌋ := by
  unfold pyIntOfRat
  rw [Int.tdiv_eq_ediv (Rat.num_nonneg.mpr h) (Int.natCast_nonneg _),
    Rat.floor_def]

lemma find_optimal_loop (energy_required : ℚ) :
    ∀ (pat : List EnergyPattern) (acc : List Int),
      pat.foldl
        (fun optimal_hours p =>
          if energy_required ≤ p.energy then optimal_hours ++ [p.hour]
          else optimal_hours) acc =
      acc ++ (pat.filter (fun p => decide (energy_required ≤ p.energy))).map
        (fun p => p.hour) := by
  intro pat
  induction pat with
  | nil => intro acc; simp
  | cons p ps ih =>
    intro acc
    rw [List.foldl_cons, List.filter_cons]
    by_cases h : energy_required ≤ p.energy
    · rw [if_pos h, ih]
      simp [h]
    · rw [if_neg h, ih]
      simp [h]

/-! ### Claim theorems -/

/-- C1 (counterexample): the deep-work window query on the default curve does
not return `[8, 9, 10, 11, 16, 17, 18]` as claimed — hour 12 (energy 75 ≥ 70)
also qualifies. -/
theorem c1_counterexample :
    find_deep_work_windows DEFAULT_ENERGY_PATTERN ≠ [8, 9, 10, 11, 16, 17, 18] := by
  decide

/-- C1 (amended): the deep-work window query (threshold 70) on the default
curve returns exactly `[8, 9, 10, 11, 12, 16, 17, 18]` in ascending order; in
general the threshold query returns all curve hours whose capacity is at
least the threshold, preserving the curve's ascending hour order, and the
deep-work query coincides with the threshold query at 70. -/
theorem c1_deep_work_windows :
    find_deep_work_windows DEFAULT_ENERGY_PATTERN =
      [8, 9, 10, 11, 12, 16, 17, 18] ∧
    (∀ pat : List EnergyPattern,
      find_deep_work_windows pat = find_optimal_time_windows 70 pat) ∧
    (∀ (req : ℚ) (pat : List EnergyPattern),
      find_optimal_time_windows req pat =
        (pat.filter (fun p => decide (req ≤ p.energy))).map (fun p => p.hour)) ∧
    (∀ (req : ℚ) (pat : List EnergyPattern),
      (pat.map (fun p => p.hour)).Pairwise (fun a b => a < b) →
      (find_optimal_time_windows req pat).Pairwise (fun a b => a < b)) := by
  have hloop : ∀ (req : ℚ) (pat : List EnergyPattern),
      find_optimal_time_windows req pat =
        (pat.filter (fun p => decide (req ≤ p.energy))).map (fun p => p.hour) := by
    intro req pat
    unfold find_optimal_time_windows
    rw [find_optimal_loop]
    simp
  refine ⟨by decide, ?_, hloop, ?_⟩
  · intro pat
    rw [hloop]
    unfold find_deep_work_windows
    rfl
  · intro req pat hp
    rw [hloop]
    exact hp.sublist ((List.filter_sublist pat).map (fun p => p.hour))

/-- C1 witness: the threshold query at 80 on the default curve (whose hours
are strictly ascending) is strictly ascending. -/
theorem c1_witness :
    (find_optimal_time_windows 80 DEFAULT_ENERGY_PATTERN).Pairwise
      (fun a b => a < b) :=
  c1_deep_work_windows.2.2.2 80 DEFAULT_ENERGY_PATTERN (by decide)

/-- C7: the alignment score is 1 when available capacity exactly equals the
requirement, equals `min 1 (1 - excess/100)` when capacity meets or exceeds
the requirement, equals `max 0 (1 - deficit/50)` when capacity is
insufficient — hence exactly 0 once the deficit is 50 or more — and is 0 for
any hour not present in the curve. -/
theorem c7_alignment (scheduled_hour : Int) (required : ℚ)
    (pat : List EnergyPattern) :
    (pat.find? (fun p => decide (p.hour = scheduled_hour)) = none →
      calculate_energy_alignment scheduled_hour required pat = 0) ∧
    (∀ p, pat.find? (fun p => decide (p.hour = scheduled_hour)) = some p →
      (p.energy = required →
        calculate_energy_alignment scheduled_hour required pat = 1) ∧
      (required ≤ p.energy →
        calculate_energy_alignment scheduled_hour required pat =
          min 1 (1 - (p.energy - required) / 100)) ∧
      (p.energy < required →
        calculate_energy_alignment scheduled_hour required pat =
          max 0 (1 - (required - p.energy) / 50)) ∧
      (50 ≤ required - p.energy →
        calculate_energy_alignment scheduled_hour required pat = 0)) := by
  constructor
  · intro hf
    unfold calculate_energy_alignment
    rw [hf]
  · intro p hf
    have hrw : calculate_energy_alignment scheduled_hour required pat =
        (if required ≤ p.energy then min 1 (1 - (p.energy - required) / 100)
         else max 0 (1 - (required - p.energy) / 50)) := by
      unfold calculate_energy_alignment
      rw [hf]
    refine ⟨?_, ?_, ?_, ?_⟩
    · intro he
      rw [hrw, if_pos (le_of_eq he.symm), he]
      norm_num
    · intro hge
      rw [hrw, if_pos hge]
    · intro hlt
      rw [hrw, if_neg (not_le.mpr hlt)]
    · intro hd
      have hlt : p.energy < required := by linarith
      rw [hrw, if_neg (not_le.mpr hlt)]
      have h1 : (1 : ℚ) ≤ (required - p.energy) / 50 := by
        rw [le_div_iff (by norm_num : (0 : ℚ) < 50)]
        linarith
      exact max_eq_left (by linarith)

/-- C7 witness: at hour 8 of the default curve (capacity 70) a requirement of
exactly 70 gives alignment 1. -/
theorem c7_witness :
    calculate_energy_alignment 8 70 DEFAULT_ENERGY_PATTERN = 1 :=
  ((c7_alignment 8 70 DEFAULT_ENERGY_PATTERN).2 ⟨8, 70⟩ (by decide)).1 rfl

/-- C10: recording a completion with an explicit actual duration of 0 stores
the task's planned duration — a falsy argument is indistinguishable from an
omitted one — so for a completed task with positive planned duration no
history record ever carries a zero actual duration. -/
theorem c10_zero_actual_duration :
    (∀ (hist : List HistRec) (task : Task),
      learn_from_task hist task (some 0) = learn_from_task hist task none) ∧
    (∀ (hist : List HistRec) (task : Task), task.completed = true →
      learn_from_task hist task (some 0) =
        hist ++ [{ priority := task.priority.val
                   duration := task.duration_minutes
                   energy := task.required_energy.val
                   tags := (task.tags.length : Int)
                   actual_duration := task.duration_minutes }]) ∧
    (∀ (hist : List HistRec) (task : Task) (ctm : Option Int),
      0 < task.duration_minutes →
      ∀ r ∈ learn_from_task hist task ctm, r ∈ hist ∨ r.actual_duration ≠ 0) := by
  refine ⟨?_, ?_, ?_⟩
  · intro hist task
    rfl
  · intro hist task hc
    unfold learn_from_task
    rw [if_pos hc]
    simp
  · intro hist task ctm hdur r hr
    unfold learn_from_task at hr
    split at hr
    · rcases List.mem_append.mp hr with h | h
      · exact Or.inl h
      · right
        have hr' := List.mem_singleton.mp h
        subst hr'
        rcases ctm with _ | c
        · show task.duration_minutes ≠ 0
          omega
        · show (if c = 0 then task.duration_minutes else c) ≠ 0
          by_cases hc0 : c = 0
          · rw [if_pos hc0]
            omega
          · rw [if_neg hc0]
            exact hc0
    · exact Or.inl hr

/-- C10 witness: completing the example task with an explicit actual duration
of 0 yields a history record whose actual duration is nonzero (the planned 30
minutes). -/
theorem c10_witness :
    ((⟨2, 30, 2, 0, 30⟩ : HistRec) ∈ ([] : List HistRec)) ∨
      (⟨2, 30, 2, 0, 30⟩ : HistRec).actual_duration ≠ 0 :=
  c10_zero_actual_duration.2.2 [] doneTask (some 0) (by decide) _ (by decide)

/-- C2 (counterexample): with three MEDIUM-priority history records of 30, 31
and 31 minutes and a MEDIUM task, the code returns `int(np.mean(...)) = 30`,
not the rounded average 31 the claim describes. -/
theorem c2_counterexample :
    recommend_duration exHist exTask = 30 ∧
    round (npMean ((similarTasks exHist exTask).map
      (fun r => r.actual_duration))) = 31 := by
  have hsim : similarTasks exHist exTask = exHist := by decide
  have hmap : exHist.map (fun r => r.actual_duration) = [30, 31, 31] := by decide
  have hmean : npMean [30, 31, 31] = 92 / 3 := by
    unfold npMean
    norm_num
  constructor
  · unfold recommend_duration
    rw [if_neg (by decide : ¬ exHist.length < 3), hsim, hmap,
      if_pos (by decide : exHist ≠ []), hmean,
      pyIntOfRat_eq_floor (by norm_num)]
    norm_num
  · rw [hsim, hmap, hmean, round_eq]
    norm_num

/-- C2 (amended): `recommend_duration` returns the task's own planned
duration when the history holds fewer than 3 records; with 3 or more records
it returns the mean of actual durations over history records whose priority
value differs from the task's by at most 1, truncated toward zero to an
integer (the floor, for the nonnegative means that occur); and it falls back
to the task's own duration if no record is within that priority distance. -/
theorem c2_recommend_duration (hist : List HistRec) (task : Task) :
    (hist.length < 3 → recommend_duration hist task = task.duration_minutes) ∧
    (3 ≤ hist.length → similarTasks hist task = [] →
      recommend_duration hist task = task.duration_minutes) ∧
    (3 ≤ hist.length → similarTasks hist task ≠ [] →
      recommend_duration hist task =
        pyIntOfRat (npMean ((similarTasks hist task).map
          (fun r => r.actual_duration)))) ∧
    (3 ≤ hist.length → similarTasks hist task ≠ [] →
      0 ≤ npMean ((similarTasks hist task).map (fun r => r.actual_duration)) →
      recommend_duration hist task =
        ⌊npMean ((similarTasks hist task).map (fun r => r.actual_duration))⌋) ∧
    (∀ r ∈ similarTasks hist task, |r.priority - task.priority.val| ≤ 1) ∧
    (∀ r ∈ hist, |r.priority - task.priority.val| ≤ 1 →
      r ∈ similarTasks hist task) := by
  have h3 : ∀ h : 3 ≤ hist.length, ¬ hist.length < 3 := by omega
  refine ⟨?_, ?_, ?_, ?_, ?_, ?_⟩
  · intro h
    unfold recommend_duration
    rw [if_pos h]
  · intro h hs
    unfold recommend_duration
    rw [if_neg (h3 h)]
    simp [hs]
  · intro h hs
    unfold recommend_duration
    rw [if_neg (h3 h), if_pos hs]
  · intro h hs hm
    unfold recommend_duration
    rw [if_neg (h3 h), if_pos hs, pyIntOfRat_eq_floor hm]
  · intro r hr
    have := List.mem_filter.mp hr
    simpa using this.2
  · intro r hr habs
    exact List.mem_filter.mpr ⟨hr, by simpa using habs⟩

/-- C2 witness: with an empty history the example task's own 60-minute
duration is returned unchanged. -/
theorem c2_witness : recommend_duration [] exTask = 60 :=
  (c2_recommend_duration [] exTask).1 (by decide)

/-- C3: with the data model's positive durations, a task whose deadline is
earlier than `windowStart + duration` is never present in the scheduling
result regardless of priority — every scheduled task in fact satisfies
`windowStart + duration < deadline` — and such a skipped task's final state,
`scheduled_time` included, is exactly its input state. -/
theorem c3_early_deadline_skipped (tasks : List Task) (s e : Int)
    (hdur : ∀ t ∈ tasks, 0 < t.duration_minutes) :
    (∀ t' ∈ schedule_tasks tasks s e, ∀ d, t'.deadline = some d →
      s + t'.duration_minutes < d) ∧
    (∀ (i : Nat) (t : Task) (d : Int), (pendingSorted tasks)[i]? = some t →
      t.deadline = some d → d < s + t.duration_minutes →
      ((scheduleLoop e (pendingSorted tasks) s).1)[i]? = some t) := by
  have hdur' : ∀ t ∈ pendingSorted tasks, 0 ≤ t.duration_minutes := by
    intro t ht
    exact le_of_lt (hdur t (mem_pendingSorted.mp ht).1)
  constructor
  · intro t' ht' d hd
    exact scheduleLoop_deadline e (pendingSorted tasks) s hdur' ht' hd
  · intro i t d hi hd hlt
    exact scheduleLoop_skip e (pendingSorted tasks) s hdur' i t d hi hd (by omega)

/-- C3 witness: the urgent `lateTask` (deadline 400 < 390 + 60) is left
exactly as it was by a run over the window [390, 450). -/
theorem c3_witness :
    ((scheduleLoop 450 (pendingSorted [lateTask]) 390).1)[0]? = some lateTask :=
  (c3_early_deadline_skipped [lateTask] 390 450 (by decide)).2 0 lateTask 400
    (by decide) (by decide) (by decide)

/-- C4: scheduling degrades silently for every input — completed tasks never
appear in the result, every result element is an input pending task with only
its `scheduled_time` replaced, and each iterated task's final state is either
exactly its input state (skipped, scheduled-time untouched) or a committed
member of the result. -/
theorem c4_silent_omission (tasks : List Task) (s e : Int) :
    (∀ t ∈ tasks, t.completed = true → t ∉ schedule_tasks tasks s e) ∧
    (∀ t' ∈ schedule_tasks tasks s e, ∃ t, t ∈ tasks ∧ t.completed = false ∧
      ∃ slot, t' = { t with scheduled_time := some slot }) ∧
    (∀ i : Nat,
      ((scheduleLoop e (pendingSorted tasks) s).1)[i]? =
        (pendingSorted tasks)[i]? ∨
      ∃ t slot, (pendingSorted tasks)[i]? = some t ∧
        ((scheduleLoop e (pendingSorted tasks) s).1)[i]? =
          some { t with scheduled_time := some slot } ∧
        { t with scheduled_time := some slot } ∈ schedule_tasks tasks s e) := by
  have hprov : ∀ t' ∈ schedule_tasks tasks s e, ∃ t, t ∈ tasks ∧
      t.completed = false ∧
      ∃ slot, t' = { t with scheduled_time := some slot } := by
    intro t' ht'
    obtain ⟨t, htmem, slot, heq, _⟩ :=
      scheduleLoop_committed e (pendingSorted tasks) s t' ht'
    obtain ⟨htasks, hcomp⟩ := mem_pendingSorted.mp htmem
    exact ⟨t, htasks, hcomp, slot, heq⟩
  refine ⟨?_, hprov, ?_⟩
  · intro t ht hcomp hmem
    obtain ⟨t0, _, hc0, slot, heq⟩ := hprov t hmem
    have hfalse : t.completed = false := by
      rw [heq]
      exact hc0
    rw [hcomp] at hfalse
    exact Bool.noConfusion hfalse
  · intro i
    exact scheduleLoop_finals e (pendingSorted tasks) s i

/-- C4 witness: a completed task is omitted from the run's result. -/
theorem c4_witness : doneTask ∉ schedule_tasks [doneTask] 0 480 :=
  (c4_silent_omission [doneTask] 0 480).1 doneTask (by decide) rfl

/-- C5: re-running the scheduler on the same tasks (now carrying the
scheduled times a first run assigned) gives the same assignments: the
per-slot score and the sort key ignore `scheduled_time`, and any two task
lists equal up to `scheduled_time` schedule identically. -/
theorem c5_rerun_deterministic (xs ys : List Task) (s e : Int)
    (h : xs.map stripSched = ys.map stripSched) :
    schedule_tasks xs s e = schedule_tasks ys s e ∧
    (∀ (t : Task) (v : Option Int) (slot : Int),
      calculate_task_score { t with scheduled_time := v } slot =
        calculate_task_score t slot) ∧
    (∀ (a b : Task) (v w : Option Int),
      taskKeyLe { a with scheduled_time := v } { b with scheduled_time := w } =
        taskKeyLe a b) := by
  refine ⟨schedule_tasks_congr h s e, ?_, ?_⟩
  · intro t v slot
    exact congrFun (score_congr rfl) slot
  · intro a b v w
    exact taskKeyLe_congr rfl rfl

/-- C5 witness: scheduling the example task is unaffected by a stale
scheduled time left from an earlier run. -/
theorem c5_witness :
    schedule_tasks [exTask] 390 450 = schedule_tasks [exTaskStale] 390 450 :=
  (c5_rerun_deterministic [exTask] [exTaskStale] 390 450 (by decide)).1

/-- C6: the score is the sum of exactly three terms — `priority.value * 2`;
plus 3 when the energy level at the slot meets the requirement, else minus
the enum-value gap; plus, only for tasks with a deadline, -100 when the slot
is past the deadline, +5 when the deadline is less than 24 hours away, +3
when it is less than 48 hours away, and 0 otherwise. -/
theorem c6_score_terms (task : Task) (slot_time : Int) :
    calculate_task_score task slot_time =
      (((task.priority.val * 2
        + (if task.required_energy.val ≤ (get_energy_at_time slot_time).val
           then 3
           else -(task.required_energy.val - (get_energy_at_time slot_time).val))
        + (match task.deadline with
           | none => 0
           | some deadline =>
             if deadline < slot_time then -100
             else if deadline - slot_time < 24 * 60 then 5
             else if deadline - slot_time < 48 * 60 then 3
             else 0)) : Int) : ℚ) := by
  rw [calculate_task_score_eq]
  congr 1
  unfold scoreZ
  rcases hd : task.deadline with _ | d
  · rfl
  · simp only
    congr 1
    by_cases h0 : d < slot_time
    · rw [if_pos (by omega : d - slot_time < 0), if_pos h0]
    · rw [if_neg (by omega : ¬ d - slot_time < 0), if_neg h0]
      by_cases h24 : d - slot_time < 1440
      · rw [if_pos h24, if_pos (by omega : d - slot_time < 24 * 60)]
      · rw [if_neg h24, if_neg (by omega : ¬ d - slot_time < 24 * 60)]
        by_cases h48 : d - slot_time < 2880
        · rw [if_pos h48, if_pos (by omega : d - slot_time < 48 * 60)]
        · rw [if_neg h48, if_neg (by omega : ¬ d - slot_time < 48 * 60)]

/-- C8: with positive durations the committed assignments are mutually
non-overlapping and their start times strictly increase in commitment order:
each later slot starts at or after an earlier slot's start plus that task's
duration. -/
theorem c8_commitments_disjoint (tasks : List Task) (s e : Int)
    (hdur : ∀ t ∈ tasks, 0 < t.duration_minutes) :
    (schedule_tasks tasks s e).Pairwise
      (fun a b => ∀ sa sb, a.scheduled_time = some sa →
        b.scheduled_time = some sb →
        sa + a.duration_minutes ≤ sb ∧ sa < sb) :=
  scheduleLoop_pairwise e (pendingSorted tasks) s
    (fun t ht => hdur t (mem_pendingSorted.mp ht).1)

/-- C8 witness: a run committing two positive-duration tasks yields pairwise
non-overlapping, strictly increasing assignments. -/
theorem c8_witness :
    (schedule_tasks [exTask, exTask2] 390 510).Pairwise
      (fun a b => ∀ sa sb, a.scheduled_time = some sa →
        b.scheduled_time = some sb →
        sa + a.duration_minutes ≤ sb ∧ sa < sb) :=
  c8_commitments_disjoint [exTask, exTask2] 390 510 (by decide)

/-- C9: the window bounds only slot starts — every committed slot starts
strictly before `windowEnd` — while a task committed to the last in-window
slot occupies time past `windowEnd`: scheduling the 60-minute example task in
the window [390, 450) commits slot 420, which runs until 480 > 450. -/
theorem c9_starts_bounded_ends_not :
    (∀ (tasks : List Task) (s e : Int), ∀ t' ∈ schedule_tasks tasks s e,
      ∀ slot, t'.scheduled_time = some slot → slot < e) ∧
    (schedule_tasks [exTask] 390 450 =
      [{ exTask with scheduled_time := some 420 }] ∧
     450 < 420 + exTask.duration_minutes) := by
  refine ⟨?_, ?_, by decide⟩
  · intro tasks s e t' ht' slot hs
    exact scheduleLoop_slots_lt e (pendingSorted tasks) s ht' hs
  · rw [schedule_tasks_eq_Z]
    decide

/-- C9 witness: the committed slot 420 of the concrete run is strictly before
the window end 450. -/
theorem c9_witness : (420 : Int) < 450 :=
  c9_starts_bounded_ends_not.1 [exTask] 390 450
    { exTask with scheduled_time := some 420 }
    (by rw [schedule_tasks_eq_Z]; decide) 420 rfl

end AITaskManager
